import Mathlib

/-!
Verification of `nagare/admin/exec_shell.py` (the `shell` and `batch`
administrative commands of nagare-commands-exec).

The Python module is embedded shallowly:

* Python dictionaries with string keys become association lists in insertion
  order with distinct keys (`PyDict`), with Python dictionary union (`d1 | d2`,
  right operand wins) as `dictUnion`.
* The conditional-import probing of `create_python_shell` is driven by a
  `Modules` record saying which optional modules are importable; the function
  returns the ordered list of import attempts together with the console it
  runs.
* `code.InteractiveConsole.interact` is an external collaborator and is
  modelled by an oracle (`InteractOracle`) giving the outcome of calling it
  with and without the `exitmsg` keyword argument.
* The `readline` module is an external collaborator modelled by its documented
  history semantics: `read_history_file` appends the file lines to the
  in-memory history, `set_history_length` sets the cap, and
  `write_history_file` writes the most recent `history_length` entries.
* `Shell.run` and `Batch.run` are embedded as the namespace, banner and
  process-state transformations they perform; `reference.load_file` is an
  oracle returning either success or a raised exception.
-/

set_option maxRecDepth 4000

namespace NagareExec

/-! ## Python dictionaries -/

/-- Python dictionary with string keys: an association list in insertion
order whose keys are distinct. -/
abbrev PyDict (α : Type) := List (String × α)

/-- Keys of a dictionary, in insertion order. -/
def dictKeys {α : Type} (d : PyDict α) : List String :=
  d.map Prod.fst

/-- Dictionary lookup (`d[k]`, as an `Option`): the entry for key `k`. -/
def lookup {α : Type} : PyDict α → String → Option α
  | [], _ => none
  | p :: t, k => if p.1 == k then some p.2 else lookup t k

/-- Python dictionary assignment `d[k] = v`: if `k` is present its value is
replaced in place, otherwise the pair is appended. -/
def dictInsert {α : Type} (d : PyDict α) (k : String) (v : α) : PyDict α :=
  if (dictKeys d).contains k then d.map (fun p => if p.1 == k then (k, v) else p)
  else d ++ [(k, v)]

/-- Python dictionary union `d₁ | d₂`: entries of `d₂` win on key clashes,
keys of `d₁` keep their position, new keys of `d₂` are appended in order. -/
def dictUnion {α : Type} (d₁ d₂ : PyDict α) : PyDict α :=
  d₂.foldl (fun acc p => dictInsert acc p.1 p.2) d₁

/-! ## String helpers (kernel-computable embeddings of the Python string
operations the source uses) -/

/-- Check that `pat` is an initial segment of `hay` (character lists). -/
def charsStartWith : List Char → List Char → Bool
  | [], _ => true
  | _ :: _, [] => false
  | p :: ps, h :: hs => p == h && charsStartWith ps hs

/-- Check that `pat` occurs contiguously inside `hay` (character lists). -/
def charsOccurIn (pat : List Char) : List Char → Bool
  | [] => charsStartWith pat []
  | h :: t => charsStartWith pat (h :: t) || charsOccurIn pat t

/-- Python substring test `pat in hay`. -/
def strContains (hay pat : String) : Bool :=
  charsOccurIn pat.data hay.data

/-- Lexicographic comparison of character lists by code point: the order
Python `sorted` uses on strings. -/
def lexLe : List Char → List Char → Bool
  | [], _ => true
  | _ :: _, [] => false
  | a :: as, b :: bs =>
      if a < b then true
      else if b < a then false
      else lexLe as bs

/-- Python string comparison `a <= b`. -/
def strLe (a b : String) : Bool :=
  lexLe a.data b.data

/-- Insert a string into an already sorted list, before the first element it
compares less-or-equal to. -/
def insertSorted (x : String) : List String → List String
  | [] => [x]
  | y :: t => if strLe x y then x :: y :: t else y :: insertSorted x t

/-- Python `sorted` on a list of strings (insertion sort; stable, ascending). -/
def pySorted : List String → List String
  | [] => []
  | x :: t => insertSorted x (pySorted t)

/-- Python `', '.join(l)`. -/
def join_comma : List String → String
  | [] => ""
  | [a] => a
  | a :: rest => a ++ ", " ++ join_comma rest

/-- Python `l[:-1]` on a list. -/
def pyInit : List String → List String
  | [] => []
  | [_] => []
  | a :: rest => a :: pyInit rest

/-- Python `l[-1]` on a list. On the empty list the source would raise
`IndexError`; the model returns `""` there, and the claim about `Shell.run`
safety shows that case is unreachable. -/
def pyLast : List String → String
  | [] => ""
  | [a] => a
  | _ :: rest => pyLast rest

/-! ## Shell backend selection (`create_python_shell`) -/

/-- Which of the optional modules probed by `create_python_shell` are
importable in the running interpreter. -/
structure Modules where
  ptpython : Bool
  bpython : Bool
  ipython : Bool
  readline : Bool

/-- The console implementations `create_python_shell` can run. -/
inductive ShellKind
  | ptpython
  | bpython
  | ipython
  | plainWithHistory
  | plainNoHistory
deriving DecidableEq

/-- The console run by `create_python_shell`: which implementation, and the
banner, prompt tag and namespace it was handed. -/
structure Console (α : Type) where
  kind : ShellKind
  banner : String
  prompt : String
  ns : PyDict α

/-- Embedding of `create_python_shell(plain, banner, prompt, **ns)`: the
sequence of `try: import ...` attempts with early `return` on the first
success, followed by the `readline` fallback.  The result records the
module names whose import was attempted, in order, and the console run. -/
def create_python_shell {α : Type} (plain : Bool) (m : Modules)
    (banner prompt : String) (ns : PyDict α) : List String × Console α :=
  if plain = false then
    if m.ptpython then
      (["ptpython"], ⟨ShellKind.ptpython, banner, prompt, ns⟩)
    else if m.bpython then
      (["ptpython", "bpython"], ⟨ShellKind.bpython, banner, prompt, ns⟩)
    else if m.ipython then
      (["ptpython", "bpython", "IPython"], ⟨ShellKind.ipython, banner, prompt, ns⟩)
    else if m.readline then
      (["ptpython", "bpython", "IPython", "readline"],
        ⟨ShellKind.plainWithHistory, banner, prompt, ns⟩)
    else
      (["ptpython", "bpython", "IPython", "readline"],
        ⟨ShellKind.plainNoHistory, banner, prompt, ns⟩)
  else
    if m.readline then
      (["readline"], ⟨ShellKind.plainWithHistory, banner, prompt, ns⟩)
    else
      (["readline"], ⟨ShellKind.plainNoHistory, banner, prompt, ns⟩)

/-! ## The fallback console (`PythonShell`, `PythonShellWithHistory`) -/

/-- Python exceptions as far as this module distinguishes them: a `TypeError`
carrying its message (`e.args[0]`), or any other exception. -/
inductive PyExc
  | typeError (msg : String)
  | other (name : String)
deriving DecidableEq

/-- Oracle for the external collaborator `code.InteractiveConsole.interact`:
the outcome of calling it with the `exitmsg` keyword argument and the outcome
of calling it without. -/
structure InteractOracle where
  withExitmsg : Except PyExc Unit
  withoutExitmsg : Except PyExc Unit

/-- Embedding of `PythonShell.__call__`: call `interact(banner, exitmsg='')`;
on a `TypeError` whose message mentions `exitmsg`, retry once as
`interact(banner)`; re-raise any other exception.  The first component
records the calls made (`true` = with the `exitmsg` keyword), the second the
outcome. -/
def PythonShell_call (o : InteractOracle) : List Bool × Except PyExc Unit :=
  match o.withExitmsg with
  | Except.ok _ => ([true], Except.ok ())
  | Except.error (PyExc.typeError msg) =>
      if strContains msg "exitmsg" then ([true, false], o.withoutExitmsg)
      else ([true], Except.error (PyExc.typeError msg))
  | Except.error e => ([true], Except.error e)

/-- State of the `readline` module: the in-memory history and the configured
history length cap. -/
structure ReadlineState where
  history : List String
  histLength : Option Nat

/-- Model of `readline.read_history_file`: append the lines of the file to
the in-memory history. -/
def read_history_file (file : List String) (st : ReadlineState) : ReadlineState :=
  { st with history := st.history ++ file }

/-- Model of `readline.set_history_length`. -/
def set_history_length (n : Nat) (st : ReadlineState) : ReadlineState :=
  { st with histLength := some n }

/-- Model of `readline.write_history_file`: the file receives the most recent
`history_length` entries of the history (all of it when no cap is set). -/
def write_history_file (st : ReadlineState) : List String :=
  match st.histLength with
  | some n => st.history.drop (st.history.length - n)
  | none => st.history

/-- Embedding of `PythonShellWithHistory.__call__`: bind tab completion, load
`~/.nagarehistory` when it exists, cap the history length at 200, run the
inherited interactive loop, then write the history file.  `histFile` is the
current content of `~/.nagarehistory` (`none` when absent); `typed` is the
history the interactive loop appends.  The result is the new file content on
normal exit, or the propagated exception. -/
def PythonShellWithHistory_call (o : InteractOracle) (typed : List String)
    (histFile : Option (List String)) : Except PyExc (List String) :=
  let st0 : ReadlineState := { history := [], histLength := none }
  let st1 := match histFile with
    | some lines => read_history_file lines st0
    | none => st0
  let st2 := set_history_length 200 st1
  match (PythonShell_call o).2 with
  | Except.error e => Except.error e
  | Except.ok _ =>
      Except.ok (write_history_file { st2 with history := st2.history ++ typed })

/-! ## `Shell.run` and `Batch.run` -/

/-- Embedding of the namespace both commands build:
`services_service.handle_interaction() | {'services': services_service}`. -/
def interaction_ns {α : Type} (hi : PyDict α) (services : α) : PyDict α :=
  dictUnion hi [("services", services)]

/-- Embedding of the variable-enumeration part of the banner `Shell.run`
builds: singular for a one-entry namespace, otherwise the quoted sorted
names joined by `', '` with `' and '` before the last. -/
def banner_variables (keys : List String) : String :=
  if keys.length = 1 then
    "Variable '" ++ keys.headD "" ++ "' is available"
  else
    let vars := (pySorted keys).map (fun v => "'" ++ v ++ "'")
    "Variables " ++ join_comma (pyInit vars) ++ " and " ++ pyLast vars
      ++ " are available"

/-- Embedding of the full banner `Shell.run` builds: the static greeting,
the interpreter version line, then the variable enumeration. -/
def Shell_run_banner {α : Type} (nagareBanner versionLine : String)
    (ns : PyDict α) : String :=
  nagareBanner ++ "\n" ++ versionLine ++ "\n\n"
    ++ banner_variables (dictKeys ns) ++ "\n"

/-- Process-wide state `Batch.run` mutates: `sys.argv` and the builtin
symbol table `builtins.__dict__`. -/
structure ProcState (α : Type) where
  argv : List String
  builtins : PyDict α

/-- Embedding of `Batch.run(python_file, batch_arguments, services_service)`:
set `sys.argv`, build the namespace, merge it into the builtin symbol table,
then hand the file to `reference.load_file` (an external oracle).  The first
component is the process state in which the script executes (and which is
kept whatever `load_file` does); the second is the outcome of `load_file`. -/
def Batch_run {α : Type} (python_file : String) (batch_arguments : List String)
    (hi : PyDict α) (services : α) (st : ProcState α)
    (load_file : String → Except PyExc Unit) : ProcState α × Except PyExc Unit :=
  let st1 := { st with argv := python_file :: batch_arguments }
  let ns := interaction_ns hi services
  let st2 := { st1 with builtins := dictUnion st1.builtins ns }
  (st2, load_file python_file)

/-! ## Spec-side rendering (for comparison with the code) -/

/-- Rendering described by the spec for a list of (already quoted) names:
comma-joined with `" and "` before the last element. -/
def englishJoin : List String → String
  | [] => ""
  | [a] => a
  | [a, b] => a ++ " and " ++ b
  | a :: rest => a ++ ", " ++ englishJoin rest

/-! ## Lemmas about the dictionary operations -/

theorem lookup_map_update {α : Type} (d : PyDict α) (k : String) (v : α)
    (h : k ∈ dictKeys d) :
    lookup (d.map (fun p => if p.1 == k then (k, v) else p)) k = some v := by
  induction d with
  | nil => simp [dictKeys] at h
  | cons p t ih =>
      by_cases hp : p.1 = k
      · simp [lookup, hp]
      · have hk : k ∈ dictKeys t := by
          simp only [dictKeys, List.map_cons, List.mem_cons] at h
          rcases h with h | h
          · exact absurd h.symm hp
          · exact h
        simpa [lookup, hp] using ih hk

theorem lookup_map_update_ne {α : Type} (d : PyDict α) (k k' : String) (v : α)
    (hne : k' ≠ k) :
    lookup (d.map (fun p => if p.1 == k then (k, v) else p)) k' = lookup d k' := by
  induction d with
  | nil => simp [lookup]
  | cons p t ih =>
      simp only [beq_iff_eq] at ih
      by_cases hp : p.1 = k
      · subst hp
        simpa [lookup, Ne.symm hne] using ih
      · simp [lookup, hp, ih]

theorem lookup_append_single {α : Type} (d : PyDict α) (k : String) (v : α)
    (h : k ∉ dictKeys d) : lookup (d ++ [(k, v)]) k = some v := by
  induction d with
  | nil => simp [lookup]
  | cons p t ih =>
      simp only [dictKeys, List.map_cons, List.mem_cons, not_or] at h
      have hne : p.1 ≠ k := fun hh => h.1 hh.symm
      simp [lookup, hne, ih h.2]

theorem lookup_append_single_ne {α : Type} (d : PyDict α) (k k' : String) (v : α)
    (hne : k' ≠ k) : lookup (d ++ [(k, v)]) k' = lookup d k' := by
  induction d with
  | nil => simp [lookup, Ne.symm hne]
  | cons p t ih => by_cases hp : p.1 = k' <;> simp [lookup, hp, ih]

theorem lookup_dictInsert_self {α : Type} (d : PyDict α) (k : String) (v : α) :
    lookup (dictInsert d k v) k = some v := by
  unfold dictInsert
  split
  · next h => exact lookup_map_update d k v (by simpa using h)
  · next h => exact lookup_append_single d k v (by simpa using h)

theorem lookup_dictInsert_ne {α : Type} (d : PyDict α) (k k' : String) (v : α)
    (hne : k' ≠ k) : lookup (dictInsert d k v) k' = lookup d k' := by
  unfold dictInsert
  split
  · exact lookup_map_update_ne d k k' v hne
  · exact lookup_append_single_ne d k k' v hne

theorem dictKeys_dictInsert {α : Type} (d : PyDict α) (k : String) (v : α) :
    dictKeys (dictInsert d k v) =
      if k ∈ dictKeys d then dictKeys d else dictKeys d ++ [k] := by
  unfold dictInsert
  by_cases h : k ∈ dictKeys d
  · rw [if_pos (by simpa using h), if_pos h]
    unfold dictKeys
    rw [List.map_map]
    apply List.map_congr_left
    intro p _
    by_cases hp : p.1 = k <;> simp [hp]
  · rw [if_neg (by simpa using h), if_neg h]
    simp [dictKeys]

theorem lookup_eq_of_mem {α : Type} (d : PyDict α) (k : String) (v : α)
    (hnd : (dictKeys d).Nodup) (hmem : (k, v) ∈ d) : lookup d k = some v := by
  induction d with
  | nil => cases hmem
  | cons p t ih =>
      simp only [dictKeys, List.map_cons, List.nodup_cons] at hnd
      rcases List.mem_cons.mp hmem with rfl | hmt
      · simp [lookup]
      · have hk : k ∈ dictKeys t := List.mem_map.mpr ⟨(k, v), hmt, rfl⟩
        have hne : p.1 ≠ k := fun h => hnd.1 (h ▸ hk)
        simp [lookup, hne, ih hnd.2 hmt]

theorem dictUnion_cons {α : Type} (d₁ : PyDict α) (p : String × α) (t : PyDict α) :
    dictUnion d₁ (p :: t) = dictUnion (dictInsert d₁ p.1 p.2) t := rfl

theorem lookup_dictUnion_not_mem {α : Type} (d₁ d₂ : PyDict α) (k : String)
    (h : k ∉ dictKeys d₂) : lookup (dictUnion d₁ d₂) k = lookup d₁ k := by
  induction d₂ generalizing d₁ with
  | nil => rfl
  | cons p t ih =>
      simp only [dictKeys, List.map_cons, List.mem_cons, not_or] at h
      rw [dictUnion_cons, ih _ h.2, lookup_dictInsert_ne _ _ _ _ h.1]

theorem lookup_dictUnion_mem {α : Type} (d₁ d₂ : PyDict α) (k : String) (v : α)
    (hnd : (dictKeys d₂).Nodup) (hmem : (k, v) ∈ d₂) :
    lookup (dictUnion d₁ d₂) k = some v := by
  induction d₂ generalizing d₁ with
  | nil => cases hmem
  | cons p t ih =>
      simp only [dictKeys, List.map_cons, List.nodup_cons] at hnd
      rcases List.mem_cons.mp hmem with rfl | hmt
      · rw [dictUnion_cons, lookup_dictUnion_not_mem _ _ _ hnd.1,
          lookup_dictInsert_self]
      · exact dictUnion_cons d₁ p t ▸ ih (dictInsert d₁ p.1 p.2) hnd.2 hmt

theorem interaction_ns_eq_dictInsert {α : Type} (hi : PyDict α) (s : α) :
    interaction_ns hi s = dictInsert hi "services" s := rfl

theorem one_le_length_dictInsert {α : Type} (d : PyDict α) (k : String) (v : α) :
    1 ≤ (dictInsert d k v).length := by
  unfold dictInsert
  split
  · next h =>
      cases d with
      | nil => simp [dictKeys] at h
      | cons p t => simp
  · simp

/-! ## Lemmas about the sort used for the banner -/

theorem lexLe_total : ∀ as bs : List Char, lexLe as bs = true ∨ lexLe bs as = true
  | [], _ => Or.inl rfl
  | _ :: _, [] => Or.inr rfl
  | a :: as, b :: bs => by
      rcases lt_trichotomy a b with h | h | h
      · left
        simp [lexLe, h]
      · subst h
        rcases lexLe_total as bs with ht | ht
        · left
          simpa [lexLe, lt_irrefl] using ht
        · right
          simpa [lexLe, lt_irrefl] using ht
      · right
        simp [lexLe, h]

theorem lexLe_trans : ∀ as bs cs : List Char,
    lexLe as bs = true → lexLe bs cs = true → lexLe as cs = true
  | [], _, _, _, _ => rfl
  | _ :: _, [], _, h1, _ => by simp [lexLe] at h1
  | _ :: _, _ :: _, [], _, h2 => by simp [lexLe] at h2
  | a :: as, b :: bs, c :: cs, h1, h2 => by
      rcases lt_trichotomy a b with hab | hab | hab
      · rcases lt_trichotomy b c with hbc | hbc | hbc
        · simp [lexLe, lt_trans hab hbc]
        · subst hbc
          simp [lexLe, hab]
        · simp [lexLe, hbc, asymm hbc] at h2
      · subst hab
        simp only [lexLe, lt_irrefl, if_false] at h1
        rcases lt_trichotomy a c with hac | hac | hac
        · simp [lexLe, hac]
        · subst hac
          simp only [lexLe, lt_irrefl, if_false] at h2 ⊢
          exact lexLe_trans as bs cs h1 h2
        · simp [lexLe, hac, asymm hac] at h2
      · simp [lexLe, hab, asymm hab] at h1

theorem strLe_total (a b : String) : strLe a b = true ∨ strLe b a = true :=
  lexLe_total a.data b.data

theorem strLe_trans {a b c : String} (h1 : strLe a b = true)
    (h2 : strLe b c = true) : strLe a c = true :=
  lexLe_trans a.data b.data c.data h1 h2

theorem perm_insertSorted (x : String) :
    ∀ l : List String, (insertSorted x l).Perm (x :: l)
  | [] => List.Perm.refl _
  | y :: t => by
      unfold insertSorted
      split
      · exact List.Perm.refl _
      · exact ((perm_insertSorted x t).cons y).trans (List.Perm.swap x y t)

theorem pairwise_insertSorted (x : String) :
    ∀ l : List String, l.Pairwise (fun a b => strLe a b = true) →
    (insertSorted x l).Pairwise (fun a b => strLe a b = true)
  | [], _ => by simp [insertSorted]
  | y :: t, h => by
      have h1 := (List.pairwise_cons.mp h).1
      have h2 := (List.pairwise_cons.mp h).2
      unfold insertSorted
      split
      · next hxy =>
          refine List.pairwise_cons.mpr ⟨?_, h⟩
          intro z hz
          rcases List.mem_cons.mp hz with rfl | hzt
          · exact hxy
          · exact strLe_trans hxy (h1 z hzt)
      · next hxy =>
          have hyx : strLe y x = true := by
            rcases strLe_total x y with ht | ht
            · exact absurd ht hxy
            · exact ht
          refine List.pairwise_cons.mpr ⟨?_, pairwise_insertSorted x t h2⟩
          intro z hz
          have hz' : z = x ∨ z ∈ t := by
            have := (perm_insertSorted x t).mem_iff.mp hz
            simpa using this
          rcases hz' with rfl | hzt
          · exact hyx
          · exact h1 z hzt

theorem perm_pySorted : ∀ l : List String, (pySorted l).Perm l
  | [] => List.Perm.refl _
  | x :: t => (perm_insertSorted x (pySorted t)).trans ((perm_pySorted t).cons x)

theorem pairwise_pySorted :
    ∀ l : List String, (pySorted l).Pairwise (fun a b => strLe a b = true)
  | [] => List.Pairwise.nil
  | x :: t => pairwise_insertSorted x (pySorted t) (pairwise_pySorted t)

theorem length_pySorted (l : List String) : (pySorted l).length = l.length :=
  (perm_pySorted l).length_eq

theorem join_and_eq : ∀ v : List String, 2 ≤ v.length →
    join_comma (pyInit v) ++ " and " ++ pyLast v = englishJoin v
  | [], h => by simp at h
  | [_], h => by simp at h
  | [a, b], _ => by simp [pyInit, pyLast, join_comma, englishJoin]
  | a :: b :: c :: t, _ => by
      have ih := join_and_eq (b :: c :: t) (by simp)
      simp only [pyInit, pyLast, join_comma, englishJoin, String.append_assoc] at ih ⊢
      rw [ih]

theorem dictKeys_nodup_dictInsert {α : Type} (d : PyDict α) (k : String) (v : α)
    (hnd : (dictKeys d).Nodup) : (dictKeys (dictInsert d k v)).Nodup := by
  rw [dictKeys_dictInsert]
  by_cases h : k ∈ dictKeys d
  · simpa [h] using hnd
  · simp only [h, if_false]
    exact hnd.append (List.nodup_singleton k)
      (fun x hx hk => h ((List.mem_singleton.mp hk) ▸ hx))

/-! ## Claim theorems -/

/-- C1: for every call to `create_python_shell` with `plain = false`, the
selector probes the optional engines in the fixed priority order ptpython,
then bpython, then IPython, and runs exactly one console, namely the first
engine whose import succeeds; when no optional engine is importable it runs
the built-in fallback console instead. -/
theorem create_python_shell_first_importable {α : Type} (m : Modules)
    (banner prompt : String) (ns : PyDict α) :
    (m.ptpython = true →
      create_python_shell false m banner prompt ns
        = (["ptpython"], ⟨ShellKind.ptpython, banner, prompt, ns⟩)) ∧
    (m.ptpython = false → m.bpython = true →
      create_python_shell false m banner prompt ns
        = (["ptpython", "bpython"], ⟨ShellKind.bpython, banner, prompt, ns⟩)) ∧
    (m.ptpython = false → m.bpython = false → m.ipython = true →
      create_python_shell false m banner prompt ns
        = (["ptpython", "bpython", "IPython"],
           ⟨ShellKind.ipython, banner, prompt, ns⟩)) ∧
    (m.ptpython = false → m.bpython = false → m.ipython = false →
      ((create_python_shell false m banner prompt ns).2.kind
          = ShellKind.plainWithHistory ∨
       (create_python_shell false m banner prompt ns).2.kind
          = ShellKind.plainNoHistory)) := by
  obtain ⟨p, b, i, r⟩ := m
  cases p <;> cases b <;> cases i <;> cases r <;> simp [create_python_shell]

theorem create_python_shell_first_importable_witness :
    create_python_shell false ⟨false, false, true, true⟩ "b" "[app]" ([] : PyDict Nat)
      = (["ptpython", "bpython", "IPython"],
         ⟨ShellKind.ipython, "b", "[app]", []⟩) :=
  (create_python_shell_first_importable ⟨false, false, true, true⟩ "b" "[app]"
    []).2.2.1 rfl rfl rfl

/-- C3: for every banner, prompt tag and namespace, calling
`create_python_shell` with `plain = true` attempts no optional-engine import
whatsoever, whatever is importable, and goes directly to the fallback
console. -/
theorem create_python_shell_plain_skips_engines {α : Type} (m : Modules)
    (banner prompt : String) (ns : PyDict α) :
    (create_python_shell true m banner prompt ns).1 = ["readline"] ∧
    ((create_python_shell true m banner prompt ns).2.kind
        = ShellKind.plainWithHistory ∨
     (create_python_shell true m banner prompt ns).2.kind
        = ShellKind.plainNoHistory) := by
  obtain ⟨p, b, i, r⟩ := m
  cases r <;> simp [create_python_shell]

/-- C2: for every namespace `Shell.run` builds, a one-entry namespace named
`x` yields the singular phrase `Variable 'x' is available` in the banner,
and a namespace of two or more entries yields `Variables ` followed by the
quoted names in sorted order, comma-joined with ` and ` before the last
name, followed by ` are available`; the full banner contains that phrase. -/
theorem shell_run_banner_phrasing {α : Type} (hi : PyDict α) (s : α)
    (nagareBanner versionLine : String) :
    (∀ x, dictKeys (interaction_ns hi s) = [x] →
      banner_variables (dictKeys (interaction_ns hi s))
        = "Variable '" ++ x ++ "' is available") ∧
    (2 ≤ (interaction_ns hi s).length →
      banner_variables (dictKeys (interaction_ns hi s))
        = "Variables "
            ++ englishJoin ((pySorted (dictKeys (interaction_ns hi s))).map
                 (fun v => "'" ++ v ++ "'"))
            ++ " are available") ∧
    ((pySorted (dictKeys (interaction_ns hi s))).Pairwise
        (fun a b => strLe a b = true)
      ∧ (pySorted (dictKeys (interaction_ns hi s))).Perm
          (dictKeys (interaction_ns hi s))) ∧
    (∃ pre, Shell_run_banner nagareBanner versionLine (interaction_ns hi s)
        = pre ++ banner_variables (dictKeys (interaction_ns hi s)) ++ "\n") := by
  refine ⟨?_, ?_, ⟨pairwise_pySorted _, perm_pySorted _⟩, ?_⟩
  · intro x hx
    rw [hx]
    simp [banner_variables]
  · intro hlen
    have hkeys : 2 ≤ (dictKeys (interaction_ns hi s)).length := by
      simpa [dictKeys] using hlen
    have hne : ¬ (dictKeys (interaction_ns hi s)).length = 1 := by omega
    have hv : 2 ≤ ((pySorted (dictKeys (interaction_ns hi s))).map
        (fun v => "'" ++ v ++ "'")).length := by
      rw [List.length_map, length_pySorted]
      exact hkeys
    have h := join_and_eq _ hv
    simp only [banner_variables, hne, if_false]
    rw [← h]
    simp only [String.append_assoc]
  · exact ⟨nagareBanner ++ "\n" ++ versionLine ++ "\n\n", rfl⟩

theorem shell_run_banner_phrasing_witness :
    banner_variables (dictKeys (interaction_ns ([] : PyDict Nat) 7))
      = "Variable 'services' is available" ∧
    banner_variables (dictKeys (interaction_ns [("session", 1), ("apps", 2)] (3 : Nat)))
      = "Variables "
          ++ englishJoin
               ((pySorted (dictKeys
                   (interaction_ns [("session", 1), ("apps", 2)] (3 : Nat)))).map
                 (fun v => "'" ++ v ++ "'"))
          ++ " are available" :=
  ⟨(shell_run_banner_phrasing ([] : PyDict Nat) 7 "" "").1 "services" rfl,
   (shell_run_banner_phrasing [("session", 1), ("apps", 2)] (3 : Nat) "" "").2.1
     (by decide)⟩

/-- C10: the namespace `Shell.run` builds always contains the key
`services`, hence is never empty; whenever the entry count is not exactly
one, the quoted sorted-name list the plural branch works on has at least two
elements, so taking its last element never touches an empty list. -/
theorem shell_run_plural_branch_safe {α : Type} (hi : PyDict α) (s : α) :
    "services" ∈ dictKeys (interaction_ns hi s) ∧
    1 ≤ (interaction_ns hi s).length ∧
    ((dictKeys (interaction_ns hi s)).length ≠ 1 →
      2 ≤ ((pySorted (dictKeys (interaction_ns hi s))).map
            (fun v => "'" ++ v ++ "'")).length) := by
  refine ⟨?_, one_le_length_dictInsert hi "services" s, ?_⟩
  · rw [interaction_ns_eq_dictInsert, dictKeys_dictInsert]
    by_cases h : "services" ∈ dictKeys hi <;> simp [h]
  · intro hne
    have h1 : 1 ≤ (dictKeys (interaction_ns hi s)).length := by
      simpa [dictKeys] using one_le_length_dictInsert hi "services" s
    rw [List.length_map, length_pySorted]
    omega

theorem shell_run_plural_branch_safe_witness :
    2 ≤ ((pySorted (dictKeys (interaction_ns [("apps", 0)] (1 : Nat)))).map
          (fun v => "'" ++ v ++ "'")).length :=
  (shell_run_plural_branch_safe [("apps", 0)] (1 : Nat)).2.2 (by decide)

/-- C4: the namespace built by `Shell.run` and `Batch.run` from any result
of `handle_interaction` maps every contributed key other than `services` to
its contributed object, and maps `services` to the service registry itself,
including when the contribution already carries a `services` key. -/
theorem interaction_ns_entries {α : Type} (hi : PyDict α) (s : α)
    (hnd : (dictKeys hi).Nodup) :
    lookup (interaction_ns hi s) "services" = some s ∧
    (∀ k v, (k, v) ∈ hi → k ≠ "services" →
      lookup (interaction_ns hi s) k = some v) := by
  refine ⟨?_, ?_⟩
  · rw [interaction_ns_eq_dictInsert]
    exact lookup_dictInsert_self hi _ s
  · intro k v hmem hne
    rw [interaction_ns_eq_dictInsert, lookup_dictInsert_ne _ _ _ _ hne]
    exact lookup_eq_of_mem hi k v hnd hmem

theorem interaction_ns_entries_witness :
    lookup (interaction_ns [("services", 9), ("apps", 1)] (5 : Nat)) "services"
      = some 5 ∧
    lookup (interaction_ns [("services", 9), ("apps", 1)] (5 : Nat)) "apps"
      = some 1 :=
  ⟨(interaction_ns_entries [("services", 9), ("apps", 1)] (5 : Nat) (by decide)).1,
   (interaction_ns_entries [("services", 9), ("apps", 1)] (5 : Nat) (by decide)).2
     "apps" 1 (by decide) (by decide)⟩

/-- C5: a `TypeError` from `interact` whose message mentions `exitmsg` makes
`PythonShell.__call__` retry exactly once without the `exitmsg` keyword and
is never surfaced to the caller; any other exception from `interact` is
re-raised; and the history-enabled fallback console writes the history file
whenever the interactive loop exits, in particular when it exited through
the retry path. -/
theorem python_shell_exitmsg_retry (o : InteractOracle) :
    (∀ msg, o.withExitmsg = Except.error (PyExc.typeError msg) →
      strContains msg "exitmsg" = true →
      PythonShell_call o = ([true, false], o.withoutExitmsg)) ∧
    (∀ e, o.withExitmsg = Except.error e →
      (∀ msg, e = PyExc.typeError msg → strContains msg "exitmsg" = false) →
      PythonShell_call o = ([true], Except.error e)) ∧
    (∀ typed histFile, (PythonShell_call o).2 = Except.ok () →
      ∃ lines, PythonShellWithHistory_call o typed histFile = Except.ok lines) ∧
    (∀ msg typed histFile,
      o.withExitmsg = Except.error (PyExc.typeError msg) →
      strContains msg "exitmsg" = true →
      o.withoutExitmsg = Except.ok () →
      ∃ lines, PythonShellWithHistory_call o typed histFile = Except.ok lines) := by
  have retry : ∀ msg, o.withExitmsg = Except.error (PyExc.typeError msg) →
      strContains msg "exitmsg" = true →
      PythonShell_call o = ([true, false], o.withoutExitmsg) := by
    intro msg h hc
    simp [PythonShell_call, h, hc]
  have writes : ∀ typed histFile, (PythonShell_call o).2 = Except.ok () →
      ∃ lines, PythonShellWithHistory_call o typed histFile = Except.ok lines := by
    intro typed histFile hok
    simp only [PythonShellWithHistory_call, hok]
    exact ⟨_, rfl⟩
  refine ⟨retry, ?_, writes, ?_⟩
  · intro e h hmsg
    cases e with
    | typeError m => simp [PythonShell_call, h, hmsg m rfl]
    | other n => simp [PythonShell_call, h]
  · intro msg typed histFile h hc hok
    refine writes typed histFile ?_
    rw [retry msg h hc]
    simpa using hok

theorem python_shell_exitmsg_retry_witness :
    PythonShell_call
        ⟨Except.error (PyExc.typeError
            "interact got an unexpected keyword argument exitmsg"),
          Except.ok ()⟩
      = ([true, false], Except.ok ()) ∧
    (∃ lines, PythonShellWithHistory_call
        ⟨Except.error (PyExc.typeError
            "interact got an unexpected keyword argument exitmsg"),
          Except.ok ()⟩ ["print(1)"] none = Except.ok lines) :=
  ⟨(python_shell_exitmsg_retry
      ⟨Except.error (PyExc.typeError
          "interact got an unexpected keyword argument exitmsg"),
        Except.ok ()⟩).1
      "interact got an unexpected keyword argument exitmsg" rfl (by decide),
   (python_shell_exitmsg_retry
      ⟨Except.error (PyExc.typeError
          "interact got an unexpected keyword argument exitmsg"),
        Except.ok ()⟩).2.2.2
      "interact got an unexpected keyword argument exitmsg" ["print(1)"] none
      rfl (by decide) rfl⟩

/-- C9: the history-enabled fallback console caps the retained history at
200 entries; a session typing N ≤ 200 lines into an absent history file
writes exactly those N lines in order, and a following session that loads
the file and types nothing writes the same lines back unchanged; a session
typing 250 lines writes only the most recent 200. -/
theorem history_roundtrip (o : InteractOracle) (typed : List String)
    (hok : (PythonShell_call o).2 = Except.ok ()) :
    (∀ lines, PythonShellWithHistory_call o typed none = Except.ok lines →
      lines.length ≤ 200) ∧
    (typed.length ≤ 200 →
      PythonShellWithHistory_call o typed none = Except.ok typed ∧
      PythonShellWithHistory_call o [] (some typed) = Except.ok typed) ∧
    (typed.length = 250 →
      PythonShellWithHistory_call o typed none
        = Except.ok (typed.drop 50)) := by
  have hnone : PythonShellWithHistory_call o typed none
      = Except.ok (typed.drop (typed.length - 200)) := by
    simp [PythonShellWithHistory_call, read_history_file, set_history_length,
      write_history_file, hok]
  have hsome : PythonShellWithHistory_call o [] (some typed)
      = Except.ok (typed.drop (typed.length - 200)) := by
    simp [PythonShellWithHistory_call, read_history_file, set_history_length,
      write_history_file, hok]
  refine ⟨?_, ?_, ?_⟩
  · intro lines h
    rw [hnone] at h
    cases h
    rw [List.length_drop]
    omega
  · intro hle
    have hz : typed.length - 200 = 0 := by omega
    rw [hnone, hsome, hz, List.drop_zero]
    exact ⟨rfl, rfl⟩
  · intro h250
    rw [hnone, h250]

theorem history_roundtrip_witness :
    PythonShellWithHistory_call ⟨Except.ok (), Except.ok ()⟩
        (List.replicate 250 "cmd") none
      = Except.ok ((List.replicate 250 "cmd").drop 50) ∧
    PythonShellWithHistory_call ⟨Except.ok (), Except.ok ()⟩ ["a", "b"] none
      = Except.ok ["a", "b"] ∧
    PythonShellWithHistory_call ⟨Except.ok (), Except.ok ()⟩ []
        (some ["a", "b"])
      = Except.ok ["a", "b"] :=
  ⟨(history_roundtrip ⟨Except.ok (), Except.ok ()⟩ (List.replicate 250 "cmd")
      rfl).2.2 (by simp),
   ((history_roundtrip ⟨Except.ok (), Except.ok ()⟩ ["a", "b"] rfl).2.1
      (by simp)).1,
   ((history_roundtrip ⟨Except.ok (), Except.ok ()⟩ ["a", "b"] rfl).2.1
      (by simp)).2⟩

/-- C6: `Batch.run` overwrites the process-wide argument vector so that the
state in which the script executes carries exactly the script path followed
by the extra arguments, in order. -/
theorem batch_run_argv {α : Type} (python_file : String)
    (batch_arguments : List String) (hi : PyDict α) (services : α)
    (st : ProcState α) (load_file : String → Except PyExc Unit) :
    (Batch_run python_file batch_arguments hi services st load_file).1.argv
      = python_file :: batch_arguments := rfl

/-- C7: every entry of the namespace `Batch.run` builds is bound to its
object in the builtin symbol table of the state in which the script
executes, so the script can reference it as an unqualified name. -/
theorem batch_run_builtins {α : Type} (python_file : String)
    (batch_arguments : List String) (hi : PyDict α) (services : α)
    (st : ProcState α) (load_file : String → Except PyExc Unit)
    (hnd : (dictKeys hi).Nodup) :
    ∀ k v, (k, v) ∈ interaction_ns hi services →
      lookup (Batch_run python_file batch_arguments hi services st
          load_file).1.builtins k = some v := by
  intro k v hmem
  have hnd2 : (dictKeys (interaction_ns hi services)).Nodup := by
    rw [interaction_ns_eq_dictInsert]
    exact dictKeys_nodup_dictInsert hi "services" services hnd
  exact lookup_dictUnion_mem st.builtins (interaction_ns hi services) k v hnd2 hmem

theorem batch_run_builtins_witness :
    lookup (Batch_run "job.py" ["--fast"] [("apps", 2)] (9 : Nat) ⟨[], []⟩
        (fun _ => Except.ok ())).1.builtins "services" = some 9 :=
  batch_run_builtins "job.py" ["--fast"] [("apps", 2)] (9 : Nat) ⟨[], []⟩
    (fun _ => Except.ok ()) (by decide) "services" 9 (by decide)

/-- C8: `Batch.run` catches nothing: an exception from the file-loading
utility propagates unchanged with no retry, and the state in which it was
raised keeps the argument-vector and builtin-symbol-table mutations. -/
theorem batch_run_propagates {α : Type} (python_file : String)
    (batch_arguments : List String) (hi : PyDict α) (services : α)
    (st : ProcState α) (load_file : String → Except PyExc Unit)
    (e : PyExc) (hfail : load_file python_file = Except.error e) :
    (Batch_run python_file batch_arguments hi services st load_file).2
      = Except.error e ∧
    (Batch_run python_file batch_arguments hi services st load_file).1.argv
      = python_file :: batch_arguments ∧
    (Batch_run python_file batch_arguments hi services st load_file).1.builtins
      = dictUnion st.builtins (interaction_ns hi services) := by
  refine ⟨?_, rfl, rfl⟩
  simpa [Batch_run] using hfail

theorem batch_run_propagates_witness :
    (Batch_run "job.py" [] ([] : PyDict Nat) 4 ⟨["old"], []⟩
        (fun _ => Except.error (PyExc.other "FileNotFoundError"))).2
      = Except.error (PyExc.other "FileNotFoundError") ∧
    (Batch_run "job.py" [] ([] : PyDict Nat) 4 ⟨["old"], []⟩
        (fun _ => Except.error (PyExc.other "FileNotFoundError"))).1.argv
      = ["job.py"] :=
  ⟨(batch_run_propagates "job.py" [] ([] : PyDict Nat) 4 ⟨["old"], []⟩
      (fun _ => Except.error (PyExc.other "FileNotFoundError"))
      (PyExc.other "FileNotFoundError") rfl).1,
   (batch_run_propagates "job.py" [] ([] : PyDict Nat) 4 ⟨["old"], []⟩
      (fun _ => Except.error (PyExc.other "FileNotFoundError"))
      (PyExc.other "FileNotFoundError") rfl).2.1⟩

end NagareExec
